import Mathlib

/-!
Shallow embedding of the `simple-library` catalog manager
(`app/models.py`, `app/utils.py`, `app/storage.py`, `app/repository.py`,
`app/services.py`, `app/data.py`) and proofs of its specification claims.

Machine-level conventions:
* Python `datetime` values are modelled as natural numbers (ticks); the
  ISO-8601 serialization used by `isoformat`/`fromisoformat` is modelled as
  a lossless decimal textual codec (the only properties the code relies on:
  serialization is injective, non-empty, and parsing inverts it).
* Python `dict` (which preserves insertion order, updates in place and
  lets the last duplicate key win) is modelled as an association list with
  Python's insert-or-replace semantics.
* Raising an exception is modelled with `Except`: an `Except.error` result
  leaves no successor state, mirroring the fact that the Python code raises
  before performing any mutation in every error path.
-/

namespace SimpleLibrary

abbrev Datetime := Nat

/-- One decimal digit as a character (`0`–`9`). -/
def digitChar (n : Nat) : Char := Char.ofNat (48 + n)

/-- Fuelled most-significant-digit-first decimal rendering. -/
def decimalAux : Nat → Nat → List Char
  | 0, _ => []
  | fuel + 1, n =>
    if n < 10 then [digitChar n]
    else decimalAux fuel (n / 10) ++ [digitChar (n % 10)]

/-- Modelled from the spec: `datetime.isoformat` produces "timestamps in a
lossless, round-trippable textual form"; we model that textual form as the
decimal rendering of the tick count. -/
def isoformat (d : Datetime) : String := String.mk (decimalAux (d + 1) d)

/-- Modelled from the spec: `datetime.fromisoformat`, the parser inverting
`isoformat`. -/
def fromisoformat (s : String) : Datetime :=
  s.data.foldl (fun acc c => acc * 10 + (c.toNat - 48)) 0

/-- `app/models.py` `Book` dataclass. -/
structure Book where
  isbn : String
  title : String
  author : String
  added_at : Datetime
  borrower : Option String
  borrowed_at : Option Datetime
deriving Repr, DecidableEq

/-- `Book.checkout`: mark the book as borrowed by the given user. -/
def Book.checkout (b : Book) (borrower : String) (now : Datetime) : Book :=
  { b with borrower := some borrower, borrowed_at := some now }

/-- `Book.checkin`: return the book to the catalog. -/
def Book.checkin (b : Book) : Book :=
  { b with borrower := none, borrowed_at := none }

/-- `Book.is_available`: a book is available when it has no borrower. -/
def Book.is_available (b : Book) : Bool := b.borrower.isNone

/-- `app/utils.py` `normalize_isbn`: keep the alphanumeric characters and
upper-case the result. -/
def normalize_isbn (value : String) : String :=
  String.mk ((value.data.filter Char.isAlphanum).map Char.toUpper)

/-- Python `str.strip()`: drop whitespace from both ends. -/
def pyStrip (s : String) : String :=
  String.mk (((s.data.dropWhile Char.isWhitespace).reverse.dropWhile
    Char.isWhitespace).reverse)

/-! ## Python `dict` model -/

abbrev Dict := List (String × Book)

/-- `m[k]`, as an `Option`. -/
def dictGet (m : Dict) (k : String) : Option Book :=
  match m.find? (fun p => p.1 == k) with
  | some p => some p.2
  | none => none

/-- `k in m`. -/
def dictContains (m : Dict) (k : String) : Bool := (dictGet m k).isSome

/-- `m[k] = v`: replace in place when the key exists, else append. -/
def dictInsert (m : Dict) (k : String) (v : Book) : Dict :=
  if dictContains m k then m.map (fun p => if p.1 == k then (k, v) else p)
  else m ++ [(k, v)]

/-- `del m[k]`. -/
def dictRemove (m : Dict) (k : String) : Dict := m.filter (fun p => p.1 != k)

/-- `m.values()`. -/
def dictValues (m : Dict) : List Book := m.map (fun p => p.2)

/-- A Python dict literal built from a list of key/value pairs
(duplicate keys: last value wins, as in a dict comprehension). -/
def dictOfPairs (l : List (String × Book)) : Dict :=
  l.foldl (fun m p => dictInsert m p.1 p.2) []

/-! ## Errors (`app/exceptions.py`) -/

inductive LibraryError where
  | notFound (msg : String)
  | alreadyExists (msg : String)
  | unavailable (msg : String)
deriving Repr, DecidableEq

/-! ## Repository (`app/repository.py`)

The repository state is the in-memory mapping `_books` together with the
collection most recently written to the backing store (`storage.save_books`
serializes exactly the books passed to it; the serialization itself is
treated in the storage section below). -/

structure RepoState where
  books : Dict
  store : List Book
deriving Repr, DecidableEq

namespace LibraryRepository

/-- `LibraryRepository._load` (run at construction): key each stored book
by its (unnormalized) `isbn` field. The `store` component starts as the
loaded collection. -/
def load (store : List Book) : RepoState :=
  { books := dictOfPairs (store.map (fun b => (b.isbn, b))), store := store }

/-- `LibraryRepository._persist`: write the current collection out. -/
def persist (s : RepoState) : RepoState := { s with store := dictValues s.books }

/-- `LibraryRepository.get`. -/
def get (s : RepoState) (isbn : String) : Except LibraryError Book :=
  let key := normalize_isbn isbn
  match dictGet s.books key with
  | none => .error (.notFound ("Book with ISBN " ++ isbn ++ " not found"))
  | some b => .ok b

/-- `LibraryRepository.add`. -/
def add (s : RepoState) (book : Book) (autosave : Bool) :
    Except LibraryError RepoState :=
  let key := normalize_isbn book.isbn
  if dictContains s.books key then
    .error (.alreadyExists ("Book with ISBN " ++ book.isbn ++ " already exists"))
  else
    let book' := { book with isbn := key }
    let s' : RepoState := { s with books := dictInsert s.books key book' }
    .ok (if autosave then persist s' else s')

/-- `LibraryRepository.remove`. -/
def remove (s : RepoState) (isbn : String) (autosave : Bool) :
    Except LibraryError RepoState :=
  let key := normalize_isbn isbn
  if dictContains s.books key then
    let s' : RepoState := { s with books := dictRemove s.books key }
    .ok (if autosave then persist s' else s')
  else
    .error (.notFound ("Book with ISBN " ++ isbn ++ " not found"))

/-- `LibraryRepository.update`. -/
def update (s : RepoState) (book : Book) (autosave : Bool) :
    Except LibraryError RepoState :=
  let key := normalize_isbn book.isbn
  if dictContains s.books key then
    let book' := { book with isbn := key }
    let s' : RepoState := { s with books := dictInsert s.books key book' }
    .ok (if autosave then persist s' else s')
  else
    .error (.notFound ("Book with ISBN " ++ book.isbn ++ " not found"))

/-- `LibraryRepository.save_all`: rebuild the mapping keyed by normalized
ISBN (the books themselves are stored as passed) and persist
unconditionally. -/
def save_all (s : RepoState) (books : List Book) : RepoState :=
  persist { s with books := dictOfPairs (books.map (fun b => (normalize_isbn b.isbn, b))) }

end LibraryRepository

/-! ## Seed data (`app/data.py`) and import entries -/

/-- A `{isbn, title, author}` record, as consumed by `import_catalog` and
produced by `default_catalog`. -/
structure Entry where
  isbn : String
  title : String
  author : String
deriving Repr, DecidableEq

/-- `app/data.py` `default_catalog`. -/
def default_catalog : List Entry :=
  [⟨"9780143127741", "The Alchemist", "Paulo Coelho"⟩,
   ⟨"9780679783268", "Pride and Prejudice", "Jane Austen"⟩,
   ⟨"9780307474278", "The Girl with the Dragon Tattoo", "Stieg Larsson"⟩,
   ⟨"9780747532743", "Harry Potter and the Philosopher's Stone", "J.K. Rowling"⟩,
   ⟨"9780061120084", "To Kill a Mockingbird", "Harper Lee"⟩]

/-! ## Service (`app/services.py`)

Each operation takes the `autosave` configuration flag and, where the Python
code calls `datetime.utcnow()`, an explicit `now` parameter. -/

namespace LibraryService

/-- `LibraryService.register_book`. -/
def register_book (s : RepoState) (autosave : Bool) (isbn title author : String)
    (now : Datetime) : Except LibraryError (Book × RepoState) :=
  let normalized := normalize_isbn isbn
  let book : Book :=
    { isbn := normalized, title := pyStrip title, author := pyStrip author,
      added_at := now, borrower := none, borrowed_at := none }
  match LibraryRepository.add s book autosave with
  | .error e => .error e
  | .ok s' => .ok (book, s')

/-- `LibraryService.remove_book`. -/
def remove_book (s : RepoState) (autosave : Bool) (isbn : String) :
    Except LibraryError RepoState :=
  LibraryRepository.remove s isbn autosave

/-- `LibraryService.borrow_book`. -/
def borrow_book (s : RepoState) (autosave : Bool) (isbn borrower : String)
    (now : Datetime) : Except LibraryError (Book × RepoState) :=
  match LibraryRepository.get s isbn with
  | .error e => .error e
  | .ok book =>
    if book.is_available then
      let book' := book.checkout borrower now
      match LibraryRepository.update s book' autosave with
      | .error e => .error e
      | .ok s' => .ok (book', s')
    else
      .error (.unavailable
        ("Book '" ++ book.title ++ "' is already borrowed by "
          ++ book.borrower.getD "None" ++ "."))

/-- `LibraryService.return_book`. -/
def return_book (s : RepoState) (autosave : Bool) (isbn : String) :
    Except LibraryError (Book × RepoState) :=
  match LibraryRepository.get s isbn with
  | .error e => .error e
  | .ok book =>
    if book.is_available then
      .error (.unavailable ("Book '" ++ book.title ++ "' is not currently borrowed."))
    else
      let book' := book.checkin
      match LibraryRepository.update s book' autosave with
      | .error e => .error e
      | .ok s' => .ok (book', s')

/-- The `Book` built for one entry of `LibraryService.import_catalog`. -/
def entryToBook (e : Entry) (now : Datetime) : Book :=
  { isbn := normalize_isbn e.isbn, title := pyStrip e.title, author := pyStrip e.author,
    added_at := now, borrower := none, borrowed_at := none }

/-- `LibraryService.import_catalog`: build one book per entry and replace
the whole catalog through `save_all` (no autosave consultation). -/
def import_catalog (s : RepoState) (entries : List Entry) (now : Datetime) :
    List Book × RepoState :=
  let imported := entries.map (fun e => entryToBook e now)
  (imported, LibraryRepository.save_all s imported)

/-- `LibraryService.reset_catalog`. -/
def reset_catalog (s : RepoState) : RepoState :=
  LibraryRepository.save_all s []

/-- The `Book` built for one seed entry by the default-initialisation step
(unlike `import_catalog`, title and author are not trimmed). -/
def seedBook (e : Entry) (now : Datetime) : Book :=
  { isbn := normalize_isbn e.isbn, title := e.title, author := e.author,
    added_at := now, borrower := none, borrowed_at := none }

/-- `LibraryService._initialize_defaults` (run at construction): add every
seed entry whose normalized ISBN is not among the `isbn` fields of the
books currently in the catalog. -/
def initDefaults (s : RepoState) (autosave : Bool) (now : Datetime) :
    Except LibraryError RepoState :=
  let existing := (dictValues s.books).map (fun b => b.isbn)
  let missing := default_catalog.filter
    (fun e => !(existing.contains (normalize_isbn e.isbn)))
  if missing.isEmpty then .ok s
  else missing.foldlM (fun st e => LibraryRepository.add st (seedBook e now) autosave) s

/-- `LibraryService.__init__` against a given stored collection: construct
the repository (which loads the store) and seed the defaults. -/
def mkService (store : List Book) (autosave : Bool) (now : Datetime) :
    Except LibraryError RepoState :=
  initDefaults (LibraryRepository.load store) autosave now

end LibraryService

/-! ## Storage serialization (`app/storage.py`) -/

/-- One JSON object of the stored array: keys
`isbn, title, author, added_at, borrower, borrowed_at`, the last two
nullable, timestamps as serialized text. -/
structure BookDict where
  isbn : String
  title : String
  author : String
  added_at : String
  borrower : Option String
  borrowed_at : Option String
deriving Repr, DecidableEq

namespace LibraryStorage

/-- `LibraryStorage._to_dict`. -/
def to_dict (b : Book) : BookDict :=
  { isbn := b.isbn, title := b.title, author := b.author,
    added_at := isoformat b.added_at, borrower := b.borrower,
    borrowed_at := b.borrowed_at.map isoformat }

/-- `LibraryStorage._from_dict` (`data.get("borrowed_at")` is a Python
truthiness test, so an empty string counts as absent). -/
def from_dict (d : BookDict) : Book :=
  { isbn := d.isbn, title := d.title, author := d.author,
    added_at := fromisoformat d.added_at,
    borrower := d.borrower,
    borrowed_at :=
      match d.borrowed_at with
      | none => none
      | some st => if st = "" then none else some (fromisoformat st) }

/-- `LibraryStorage.load_books` on an already-parsed JSON array. -/
def load_books (payload : List BookDict) : List Book := payload.map from_dict

/-- `LibraryStorage.save_books` up to JSON rendering. -/
def save_books (books : List Book) : List BookDict := books.map to_dict

/-- A stored timestamp text is valid when it is the canonical serialization
of the instant it denotes. -/
def validIso (st : String) : Bool := isoformat (fromisoformat st) == st

/-- A stored record is valid when its timestamp fields are canonical. -/
def validDict (d : BookDict) : Bool :=
  validIso d.added_at &&
    (match d.borrowed_at with
     | none => true
     | some st => validIso st)

end LibraryStorage

/-! ## Proof-level definitions: scanning helpers, invariant predicates,
reachability, and concrete states used by witnesses -/

/-- The last pair bound to `k`, scanning left to right. -/
def lastPairWith (k : String) : List (String × Book) → Option Book
  | [] => none
  | q :: rest =>
    match lastPairWith k rest with
    | some v => some v
    | none => if q.1 == k then some q.2 else none

/-- Shorthand for the fold performed by the seeding step. -/
def seedFold (entries : List Entry) (st : RepoState) (a : Bool) (now : Datetime) :
    Except LibraryError RepoState :=
  entries.foldlM (fun acc e => LibraryRepository.add acc (LibraryService.seedBook e now) a) st

/-- The two optional circulation fields are set or cleared together. -/
def bookWellFormed (b : Book) : Bool := b.borrower.isNone == b.borrowed_at.isNone

/-- A well-formed stored collection: every book pairs its circulation
fields. -/
def WellFormedStore (store : List Book) : Bool := store.all bookWellFormed

/-- Every book of the in-memory mapping pairs its circulation fields. -/
def StateWF (s : RepoState) : Prop := ∀ p ∈ s.books, bookWellFormed p.2 = true

/-- Repository states reachable through the public service operations:
construction against a well-formed store, registration, borrow, return,
removal, bulk import, and reset. -/
inductive Reachable : RepoState → Prop where
  | init (store : List Book) (autosave : Bool) (now : Datetime) (s : RepoState) :
      WellFormedStore store = true →
      LibraryService.mkService store autosave now = .ok s → Reachable s
  | register (s : RepoState) (autosave : Bool) (isbn title author : String)
      (now : Datetime) (b : Book) (s' : RepoState) :
      Reachable s →
      LibraryService.register_book s autosave isbn title author now = .ok (b, s') →
      Reachable s'
  | borrow (s : RepoState) (autosave : Bool) (isbn borrower : String)
      (now : Datetime) (b : Book) (s' : RepoState) :
      Reachable s →
      LibraryService.borrow_book s autosave isbn borrower now = .ok (b, s') →
      Reachable s'
  | ret (s : RepoState) (autosave : Bool) (isbn : String) (b : Book)
      (s' : RepoState) :
      Reachable s →
      LibraryService.return_book s autosave isbn = .ok (b, s') → Reachable s'
  | removeBook (s : RepoState) (autosave : Bool) (isbn : String) (s' : RepoState) :
      Reachable s →
      LibraryService.remove_book s autosave isbn = .ok s' → Reachable s'
  | importCat (s : RepoState) (entries : List Entry) (now : Datetime) :
      Reachable s → Reachable (LibraryService.import_catalog s entries now).2
  | reset (s : RepoState) :
      Reachable s → Reachable (LibraryService.reset_catalog s)

/-- The last list element satisfying `p`, scanning left to right. -/
def lastWith (p : Book → Bool) : List Book → Option Book
  | [] => none
  | b :: rest =>
    match lastWith p rest with
    | some r => some r
    | none => if p b then some b else none

/-- Every key of the in-memory mapping is already in normalized form. -/
def KeysNormalized (s : RepoState) : Bool :=
  s.books.all (fun p => normalize_isbn p.1 == p.1)

/-- Unwrap a construction/removal result (all uses below are `.ok`). -/
def orEmpty : Except LibraryError RepoState → RepoState
  | .ok s => s
  | .error _ => ⟨[], []⟩

/-- The state of a service constructed against an empty store. -/
def state0 : RepoState := orEmpty (LibraryService.mkService [] true 0)

/-- `state0` after the user removes the seed entry `9780143127741`. -/
def state1 : RepoState :=
  orEmpty (LibraryService.remove_book state0 true "9780143127741")

/-- The state of a service reconstructed against `state1`'s store. -/
def state2 : RepoState := orEmpty (LibraryService.mkService state1.store true 1)

/-! ## Lemmas about the dict model -/

theorem dictGet_cons (p : String × Book) (m : Dict) (k : String) :
    dictGet (p :: m) k = if p.1 == k then some p.2 else dictGet m k := by
  simp only [dictGet, List.find?]
  cases h : p.1 == k <;> simp [h]

theorem dictContains_cons (p : String × Book) (m : Dict) (k : String) :
    dictContains (p :: m) k = (p.1 == k || dictContains m k) := by
  simp only [dictContains, dictGet_cons]
  cases h : p.1 == k <;> simp [h]

/-- `dictGet` after a replace-in-place map step, away from the replaced key. -/
theorem dictGet_map_replace (m : Dict) (k k' : String) (v : Book) (hne : k' ≠ k) :
    dictGet (m.map (fun p => if p.1 == k then (k, v) else p)) k' = dictGet m k' := by
  induction m with
  | nil => rfl
  | cons hd tl ih =>
    simp only [List.map_cons, dictGet_cons]
    cases hk : hd.1 == k with
    | true =>
      have hkk : hd.1 = k := beq_iff_eq.mp hk
      have h2 : (k == k') = false :=
        beq_eq_false_iff_ne.mpr fun h => hne h.symm
      have h3 : (hd.1 == k') = false :=
        beq_eq_false_iff_ne.mpr fun h => hne (hkk ▸ h).symm
      rw [if_pos (show (true : Bool) = true from rfl)]
      simp only [h3, Bool.false_eq_true, if_false]
      have h2' : (((k, v) : String × Book).1 == k') = false := h2
      simp only [h2', Bool.false_eq_true, if_false, ih]
    | false =>
      rw [if_neg (show ¬((false : Bool) = true) by simp)]
      rw [ih]

/-- `dictGet` after a replace-in-place map step, at the replaced key. -/
theorem dictGet_map_replace_self (m : Dict) (k : String) (v : Book)
    (hmem : dictContains m k = true) :
    dictGet (m.map (fun p => if p.1 == k then (k, v) else p)) k = some v := by
  induction m with
  | nil => simp [dictContains, dictGet] at hmem
  | cons hd tl ih =>
    simp only [dictContains_cons, Bool.or_eq_true] at hmem
    simp only [List.map_cons, dictGet_cons]
    cases hk : hd.1 == k with
    | true =>
      rw [if_pos (show (true : Bool) = true from rfl)]
      have h2 : (((k, v) : String × Book).1 == k) = true := beq_iff_eq.mpr rfl
      simp only [h2, if_true]
    | false =>
      rw [if_neg (show ¬((false : Bool) = true) by simp)]
      rcases hmem with hmem | hmem
      · rw [hk] at hmem; cases hmem
      · rw [if_neg (show ¬((hd.1 == k) = true) by simp [hk])]
        exact ih hmem

/-- `dictGet` over an appended singleton when the key is not already bound. -/
theorem dictGet_append_single (m : Dict) (k k' : String) (v : Book)
    (habs : dictContains m k = false) :
    dictGet (m ++ [(k, v)]) k' = if k' = k then some v else dictGet m k' := by
  induction m with
  | nil =>
    simp only [List.nil_append, dictGet_cons, dictGet]
    by_cases h : k' = k
    · simp [h]
    · have : (k == k') = false := by
        simp [beq_iff_eq]
        exact fun hh => h hh.symm
      simp [this, h, List.find?]
  | cons hd tl ih =>
    simp only [dictContains_cons, Bool.or_eq_false_iff] at habs
    simp only [List.cons_append, dictGet_cons]
    by_cases h : k' = k
    · subst h
      rw [habs.1]
      simp [ih habs.2, if_pos rfl]
    · cases hh : hd.1 == k' <;> simp [hh, ih habs.2, h]

/-- The central dict lemma: reading after a Python `m[k] = v`. -/
theorem dictGet_dictInsert (m : Dict) (k k' : String) (v : Book) :
    dictGet (dictInsert m k v) k' = if k' = k then some v else dictGet m k' := by
  unfold dictInsert
  cases hc : dictContains m k with
  | true =>
    rw [if_pos (show (true : Bool) = true from rfl)]
    by_cases h : k' = k
    · subst h
      rw [dictGet_map_replace_self m k' v hc, if_pos rfl]
    · rw [dictGet_map_replace m k k' v h, if_neg h]
  | false =>
    rw [if_neg (show ¬((false : Bool) = true) by simp)]
    exact dictGet_append_single m k k' v hc

theorem dictGet_dictInsert_self (m : Dict) (k : String) (v : Book) :
    dictGet (dictInsert m k v) k = some v := by
  simp [dictGet_dictInsert]

/-- Every binding of `dictInsert m k v` is the new binding or an old one. -/
theorem mem_dictInsert (m : Dict) (k : String) (v : Book) (p : String × Book)
    (h : p ∈ dictInsert m k v) : p = (k, v) ∨ p ∈ m := by
  unfold dictInsert at h
  by_cases hc : dictContains m k = true
  · rw [if_pos hc] at h
    rcases List.mem_map.mp h with ⟨q, hq, hfq⟩
    by_cases hk : q.1 = k
    · left
      rw [← hfq, if_pos (beq_iff_eq.mpr hk)]
    · right
      rw [← hfq, if_neg (by simp [beq_iff_eq, hk])]
      exact hq
  · rw [if_neg hc] at h
    rcases List.mem_append.mp h with h | h
    · exact Or.inr h
    · exact Or.inl (List.mem_singleton.mp h)

/-- Every binding produced by a sequence of inserts comes from the seed dict
or from the inserted pairs. -/
theorem mem_foldl_dictInsert (l : List (String × Book)) (m : Dict)
    (p : String × Book)
    (h : p ∈ l.foldl (fun acc q => dictInsert acc q.1 q.2) m) :
    p ∈ m ∨ p ∈ l := by
  induction l generalizing m with
  | nil => exact Or.inl h
  | cons hd tl ih =>
    rcases ih (dictInsert m hd.1 hd.2) h with h' | h'
    · rcases mem_dictInsert m hd.1 hd.2 p h' with h'' | h''
      · right
        rw [h'']
        exact List.mem_cons_self _ _
      · exact Or.inl h''
    · exact Or.inr (List.mem_cons_of_mem _ h')

theorem mem_dictOfPairs (l : List (String × Book)) (p : String × Book)
    (h : p ∈ dictOfPairs l) : p ∈ l := by
  rcases mem_foldl_dictInsert l [] p h with h' | h'
  · cases h'
  · exact h'

/-! ## Character-level lemmas -/

theorem char_toNat_ofNat (n : Nat) (h : n < 55296) : (Char.ofNat n).toNat = n := by
  rw [Char.ofNat, dif_pos (Or.inl h)]
  rfl

theorem uint32_le_iff (a b : UInt32) : a ≤ b ↔ a.toNat ≤ b.toNat := Iff.rfl

theorem char_isLower_iff (c : Char) :
    c.isLower = true ↔ 97 ≤ c.toNat ∧ c.toNat ≤ 122 := by
  simp only [Char.isLower, ge_iff_le, Bool.and_eq_true, decide_eq_true_eq]
  exact Iff.rfl

theorem char_isUpper_iff (c : Char) :
    c.isUpper = true ↔ 65 ≤ c.toNat ∧ c.toNat ≤ 90 := by
  simp only [Char.isUpper, ge_iff_le, Bool.and_eq_true, decide_eq_true_eq]
  exact Iff.rfl

theorem char_isDigit_iff (c : Char) :
    c.isDigit = true ↔ 48 ≤ c.toNat ∧ c.toNat ≤ 57 := by
  simp only [Char.isDigit, ge_iff_le, Bool.and_eq_true, decide_eq_true_eq]
  exact Iff.rfl

theorem char_isAlphanum_iff (c : Char) :
    c.isAlphanum = true ↔
      (65 ≤ c.toNat ∧ c.toNat ≤ 90) ∨ (97 ≤ c.toNat ∧ c.toNat ≤ 122) ∨
        (48 ≤ c.toNat ∧ c.toNat ≤ 57) := by
  simp only [Char.isAlphanum, Char.isAlpha, Bool.or_eq_true,
    char_isUpper_iff, char_isLower_iff, char_isDigit_iff]
  tauto

theorem char_toUpper_of_lower (c : Char) (h : 97 ≤ c.toNat ∧ c.toNat ≤ 122) :
    (Char.toUpper c).toNat = c.toNat - 32 := by
  unfold Char.toUpper
  rw [if_pos ⟨h.1, h.2⟩]
  exact char_toNat_ofNat _ (by omega)

theorem char_toUpper_of_not_lower (c : Char)
    (h : ¬(97 ≤ c.toNat ∧ c.toNat ≤ 122)) : Char.toUpper c = c := by
  unfold Char.toUpper
  rw [if_neg fun hc => h ⟨hc.1, hc.2⟩]

theorem char_toUpper_idem (c : Char) :
    Char.toUpper (Char.toUpper c) = Char.toUpper c := by
  by_cases h : 97 ≤ c.toNat ∧ c.toNat ≤ 122
  · have h1 := char_toUpper_of_lower c h
    exact char_toUpper_of_not_lower _ (by omega)
  · rw [char_toUpper_of_not_lower c h, char_toUpper_of_not_lower c h]

theorem char_isAlphanum_toUpper (c : Char) (h : c.isAlphanum = true) :
    (Char.toUpper c).isAlphanum = true := by
  rcases (char_isAlphanum_iff c).mp h with h' | h' | h'
  · rw [char_toUpper_of_not_lower c (by omega)]
    exact h
  · have h1 := char_toUpper_of_lower c h'
    exact (char_isAlphanum_iff _).mpr (Or.inl (by omega))
  · rw [char_toUpper_of_not_lower c (by omega)]
    exact h

/-! ## Lemmas about `normalize_isbn` -/

theorem normalize_isbn_idem_aux (l : List Char) :
    ((l.filter Char.isAlphanum).map Char.toUpper).filter Char.isAlphanum =
      (l.filter Char.isAlphanum).map Char.toUpper := by
  apply List.filter_eq_self.mpr
  intro c hc
  rcases List.mem_map.mp hc with ⟨d, hd, hdc⟩
  have hdal : d.isAlphanum = true := List.of_mem_filter hd
  rw [← hdc]
  exact char_isAlphanum_toUpper d hdal

/-- `normalize_isbn` is idempotent. -/
theorem normalize_isbn_idempotent (s : String) :
    normalize_isbn (normalize_isbn s) = normalize_isbn s := by
  unfold normalize_isbn
  have hdata : (String.mk ((s.data.filter Char.isAlphanum).map Char.toUpper)).data
      = (s.data.filter Char.isAlphanum).map Char.toUpper := rfl
  rw [hdata, normalize_isbn_idem_aux, List.map_map]
  have hfun : Char.toUpper ∘ Char.toUpper = Char.toUpper :=
    funext char_toUpper_idem
  rw [hfun]

/-! ## Lemmas about the decimal timestamp codec -/

theorem decimalAux_spec (fuel : Nat) :
    ∀ n acc, n < fuel →
      (decimalAux fuel n).foldl (fun a c => a * 10 + (c.toNat - 48)) acc =
        acc * 10 ^ (decimalAux fuel n).length + n ∧ (decimalAux fuel n).length ≠ 0 := by
  induction fuel with
  | zero => intro n acc h; omega
  | succ fuel ih =>
    intro n acc h
    by_cases h10 : n < 10
    · rw [decimalAux, if_pos h10]
      refine ⟨?_, by simp⟩
      have hd : (digitChar n).toNat = 48 + n := char_toNat_ofNat _ (by omega)
      simp only [List.foldl_cons, List.foldl_nil, List.length_cons,
        List.length_nil, hd, pow_one]
      omega
    · rw [decimalAux, if_neg h10]
      have hdiv : n / 10 < fuel := by omega
      obtain ⟨ih1, ih2⟩ := ih (n / 10) acc hdiv
      have hd : (digitChar (n % 10)).toNat = 48 + n % 10 :=
        char_toNat_ofNat _ (by omega)
      refine ⟨?_, by simp⟩
      rw [List.foldl_append, ih1]
      simp only [List.foldl_cons, List.foldl_nil, List.length_append,
        List.length_cons, List.length_nil, hd]
      rw [pow_succ]
      have : 48 + n % 10 - 48 = n % 10 := by omega
      rw [this]
      have hn : n / 10 * 10 + n % 10 = n := by omega
      ring_nf
      omega

/-- Parsing inverts serialization. -/
theorem fromisoformat_isoformat (d : Datetime) :
    fromisoformat (isoformat d) = d := by
  unfold fromisoformat isoformat
  have := (decimalAux_spec (d + 1) d 0 (by omega)).1
  simpa using this

/-- Serialized timestamps are never the empty string. -/
theorem isoformat_ne_empty (d : Datetime) : isoformat d ≠ "" := by
  unfold isoformat
  intro h
  have hlen := (decimalAux_spec (d + 1) d 0 (by omega)).2
  have : decimalAux (d + 1) d = [] := by
    have := congrArg String.data h
    simpa using this
  rw [this] at hlen
  simp at hlen

theorem dictGet_foldl_pairs (l : List (String × Book)) (m : Dict) (k : String) :
    dictGet (l.foldl (fun acc q => dictInsert acc q.1 q.2) m) k =
      match lastPairWith k l with
      | some v => some v
      | none => dictGet m k := by
  induction l generalizing m with
  | nil => rfl
  | cons hd tl ih =>
    simp only [List.foldl_cons, lastPairWith]
    rw [ih]
    cases hlast : lastPairWith k tl with
    | some v => simp
    | none =>
      simp only [dictGet_dictInsert]
      by_cases h : k = hd.1
      · simp [h, beq_iff_eq]
      · have : (hd.1 == k) = false := by
          simp [beq_iff_eq]
          exact fun hh => h hh.symm
        simp [h, this]

/-- Reading a dict literal: the last pair with the requested key wins. -/
theorem dictGet_dictOfPairs (l : List (String × Book)) (k : String) :
    dictGet (dictOfPairs l) k = lastPairWith k l := by
  unfold dictOfPairs
  rw [dictGet_foldl_pairs]
  cases h : lastPairWith k l <;> simp [dictGet]

theorem lastPairWith_isSome_iff (k : String) (l : List (String × Book)) :
    (lastPairWith k l).isSome = true ↔ ∃ q ∈ l, q.1 = k := by
  induction l with
  | nil => simp [lastPairWith]
  | cons hd tl ih =>
    simp only [lastPairWith]
    cases hlast : lastPairWith k tl with
    | some v =>
      simp only [Option.isSome_some, true_iff]
      rcases ih.mp (by rw [hlast]; rfl) with ⟨q, hq, hqk⟩
      exact ⟨q, List.mem_cons_of_mem _ hq, hqk⟩
    | none =>
      rw [hlast] at ih
      simp only [Option.isSome_none, Bool.false_eq_true, false_iff] at ih
      show (if hd.1 == k then some hd.2 else none).isSome = true ↔ _
      by_cases hk : hd.1 = k
      · simp only [beq_iff_eq, if_pos hk, Option.isSome_some, true_iff]
        exact ⟨hd, List.mem_cons_self _ _, hk⟩
      · simp only [beq_iff_eq, if_neg hk, Option.isSome_none, Bool.false_eq_true,
          false_iff]
        rintro ⟨q, hq, hqk⟩
        rcases List.mem_cons.mp hq with rfl | hq'
        · exact hk hqk
        · exact ih ⟨q, hq', hqk⟩

theorem dictContains_dictInsert (m : Dict) (k k' : String) (v : Book) :
    dictContains (dictInsert m k v) k' =
      if k' = k then true else dictContains m k' := by
  unfold dictContains
  rw [dictGet_dictInsert]
  by_cases h : k' = k <;> simp [h]

theorem dictContains_of_mem (m : Dict) (p : String × Book) (h : p ∈ m) :
    dictContains m p.1 = true := by
  induction m with
  | nil => cases h
  | cons hd tl ih =>
    rw [dictContains_cons]
    rcases List.mem_cons.mp h with rfl | h'
    · simp
    · rw [ih h']
      simp

/-! ## Extraction lemmas for the repository operations -/

theorem books_of_ite (a : Bool) (s : RepoState) :
    (if a then LibraryRepository.persist s else s).books = s.books := by
  cases a <;> rfl

theorem add_ok_books (s : RepoState) (bk : Book) (a : Bool) (s' : RepoState)
    (h : LibraryRepository.add s bk a = .ok s') :
    s'.books = dictInsert s.books (normalize_isbn bk.isbn)
      { bk with isbn := normalize_isbn bk.isbn } := by
  cases hc : dictContains s.books (normalize_isbn bk.isbn) with
  | true => simp [LibraryRepository.add, hc] at h
  | false =>
    simp only [LibraryRepository.add, hc, Bool.false_eq_true, if_false,
      Except.ok.injEq] at h
    rw [← h, books_of_ite]

theorem add_ok_not_contains (s : RepoState) (bk : Book) (a : Bool) (s' : RepoState)
    (h : LibraryRepository.add s bk a = .ok s') :
    dictContains s.books (normalize_isbn bk.isbn) = false := by
  cases hc : dictContains s.books (normalize_isbn bk.isbn) with
  | true => simp [LibraryRepository.add, hc] at h
  | false => rfl

theorem update_ok_books (s : RepoState) (bk : Book) (a : Bool) (s' : RepoState)
    (h : LibraryRepository.update s bk a = .ok s') :
    s'.books = dictInsert s.books (normalize_isbn bk.isbn)
      { bk with isbn := normalize_isbn bk.isbn } := by
  cases hc : dictContains s.books (normalize_isbn bk.isbn) with
  | false => simp [LibraryRepository.update, hc] at h
  | true =>
    simp only [LibraryRepository.update, hc, if_true, Except.ok.injEq] at h
    rw [← h, books_of_ite]

theorem update_contains_ok (s : RepoState) (bk : Book) (a : Bool)
    (hc : dictContains s.books (normalize_isbn bk.isbn) = true) :
    ∃ s', LibraryRepository.update s bk a = .ok s' := by
  simp only [LibraryRepository.update, hc, if_true]
  exact ⟨_, rfl⟩

theorem remove_ok_books (s : RepoState) (isbn : String) (a : Bool) (s' : RepoState)
    (h : LibraryRepository.remove s isbn a = .ok s') :
    s'.books = dictRemove s.books (normalize_isbn isbn) := by
  cases hc : dictContains s.books (normalize_isbn isbn) with
  | false => simp [LibraryRepository.remove, hc] at h
  | true =>
    simp only [LibraryRepository.remove, hc, if_true, Except.ok.injEq] at h
    rw [← h, books_of_ite]

/-! ## Lemmas about the default-seeding fold -/

theorem seedFold_nil (st : RepoState) (a : Bool) (now : Datetime) :
    seedFold [] st a now = .ok st := rfl

theorem seedFold_cons (e : Entry) (rest : List Entry) (st : RepoState) (a : Bool)
    (now : Datetime) (st' : RepoState) (h : seedFold (e :: rest) st a now = .ok st') :
    ∃ st₁, LibraryRepository.add st (LibraryService.seedBook e now) a = .ok st₁ ∧
      seedFold rest st₁ a now = .ok st' := by
  unfold seedFold at h ⊢
  rw [List.foldlM_cons] at h
  cases hadd : LibraryRepository.add st (LibraryService.seedBook e now) a with
  | error err => rw [hadd] at h; exact Except.noConfusion h
  | ok st₁ =>
    rw [hadd] at h
    exact ⟨st₁, rfl, h⟩

theorem seedFold_mono (entries : List Entry) :
    ∀ (st st' : RepoState) (a : Bool) (now : Datetime) (k : String),
      seedFold entries st a now = .ok st' →
      dictContains st.books k = true → dictContains st'.books k = true := by
  induction entries with
  | nil =>
    intro st st' a now k h hk
    rw [seedFold_nil] at h
    cases h
    exact hk
  | cons e rest ih =>
    intro st st' a now k h hk
    rcases seedFold_cons e rest st a now st' h with ⟨st₁, hadd, hrest⟩
    apply ih st₁ st' a now k hrest
    rw [add_ok_books st _ a st₁ hadd] at *
    rw [dictContains_dictInsert]
    by_cases hkk : k = normalize_isbn (LibraryService.seedBook e now).isbn
    · rw [if_pos hkk]
    · rw [if_neg hkk]; exact hk

theorem seedFold_added (entries : List Entry) :
    ∀ (st st' : RepoState) (a : Bool) (now : Datetime),
      seedFold entries st a now = .ok st' →
      ∀ e ∈ entries, dictContains st'.books (normalize_isbn e.isbn) = true := by
  induction entries with
  | nil => intro st st' a now h e he; cases he
  | cons hd rest ih =>
    intro st st' a now h e he
    rcases seedFold_cons hd rest st a now st' h with ⟨st₁, hadd, hrest⟩
    rcases List.mem_cons.mp he with rfl | he'
    · apply seedFold_mono rest st₁ st' a now _ hrest
      rw [add_ok_books st _ a st₁ hadd, dictContains_dictInsert]
      have : normalize_isbn (LibraryService.seedBook e now).isbn
          = normalize_isbn e.isbn := by
        show normalize_isbn (normalize_isbn e.isbn) = normalize_isbn e.isbn
        exact normalize_isbn_idempotent e.isbn
      rw [this, if_pos rfl]
    · exact ih st₁ st' a now hrest e he'

/-- Every binding after the seeding fold is an inserted seed book or one of
the bindings the fold started from. -/
theorem seedFold_mem (entries : List Entry) :
    ∀ (st st' : RepoState) (a : Bool) (now : Datetime) (p : String × Book),
      seedFold entries st a now = .ok st' →
      p ∈ st'.books →
      p ∈ st.books ∨ ∃ e ∈ entries,
        p = (normalize_isbn (LibraryService.seedBook e now).isbn,
          { LibraryService.seedBook e now with
            isbn := normalize_isbn (LibraryService.seedBook e now).isbn }) := by
  induction entries with
  | nil =>
    intro st st' a now p h hp
    rw [seedFold_nil] at h
    cases h
    exact Or.inl hp
  | cons hd rest ih =>
    intro st st' a now p h hp
    rcases seedFold_cons hd rest st a now st' h with ⟨st₁, hadd, hrest⟩
    rcases ih st₁ st' a now p hrest hp with h1 | ⟨e, he, hpe⟩
    · rw [add_ok_books st _ a st₁ hadd] at h1
      rcases mem_dictInsert _ _ _ _ h1 with h2 | h2
      · exact Or.inr ⟨hd, List.mem_cons_self _ _, h2⟩
      · exact Or.inl h2
    · exact Or.inr ⟨e, List.mem_cons_of_mem _ he, hpe⟩

/-! ## The borrower/borrowed_at pairing invariant -/

theorem bookWellFormed_set_isbn (b : Book) (k : String) :
    bookWellFormed { b with isbn := k } = bookWellFormed b := rfl

theorem is_available_iff (b : Book) :
    b.is_available = true ↔ b.borrower = none := by
  unfold Book.is_available
  cases b.borrower <;> simp

theorem bookWellFormed_iff (b : Book) (h : bookWellFormed b = true) :
    b.borrower = none ↔ b.borrowed_at = none := by
  unfold bookWellFormed at h
  cases hb : b.borrower <;> cases hb' : b.borrowed_at <;>
    rw [hb, hb'] at h <;> simp_all

theorem stateWF_dictInsert (m : Dict) (k : String) (v : Book)
    (hm : ∀ p ∈ m, bookWellFormed p.2 = true) (hv : bookWellFormed v = true) :
    ∀ p ∈ dictInsert m k v, bookWellFormed p.2 = true := by
  intro p hp
  rcases mem_dictInsert m k v p hp with rfl | hp'
  · exact hv
  · exact hm p hp'

theorem stateWF_load (store : List Book) (h : WellFormedStore store = true) :
    StateWF (LibraryRepository.load store) := by
  intro p hp
  have hp' := mem_dictOfPairs _ _ hp
  rcases List.mem_map.mp hp' with ⟨b, hb, hpb⟩
  rw [← hpb]
  exact List.all_eq_true.mp h b hb

theorem stateWF_seedFold (entries : List Entry) (st st' : RepoState) (a : Bool)
    (now : Datetime) (h : seedFold entries st a now = .ok st') (hwf : StateWF st) :
    StateWF st' := by
  intro p hp
  rcases seedFold_mem entries st st' a now p h hp with h1 | ⟨e, _, rfl⟩
  · exact hwf p h1
  · rfl

theorem stateWF_initDefaults (s : RepoState) (a : Bool) (now : Datetime)
    (st : RepoState) (h : LibraryService.initDefaults s a now = .ok st)
    (hwf : StateWF s) : StateWF st := by
  unfold LibraryService.initDefaults at h
  set missing := default_catalog.filter
    (fun e => !(((dictValues s.books).map (fun b => b.isbn)).contains
      (normalize_isbn e.isbn))) with hmiss
  by_cases hempty : missing.isEmpty
  · rw [if_pos hempty] at h
    cases h
    exact hwf
  · rw [if_neg hempty] at h
    exact stateWF_seedFold missing s st a now h hwf

theorem stateWF_mkService (store : List Book) (a : Bool) (now : Datetime)
    (st : RepoState) (h : LibraryService.mkService store a now = .ok st)
    (hwf : WellFormedStore store = true) : StateWF st :=
  stateWF_initDefaults _ a now st h (stateWF_load store hwf)

/-! ## Extraction lemmas for the service operations -/

theorem register_ok (s : RepoState) (a : Bool) (isbn title author : String)
    (now : Datetime) (b : Book) (s' : RepoState)
    (h : LibraryService.register_book s a isbn title author now = .ok (b, s')) :
    b = { isbn := normalize_isbn isbn, title := pyStrip title,
          author := pyStrip author, added_at := now, borrower := none,
          borrowed_at := none } ∧
    LibraryRepository.add s b a = .ok s' := by
  cases hadd : LibraryRepository.add s
      { isbn := normalize_isbn isbn, title := pyStrip title,
        author := pyStrip author, added_at := now, borrower := none,
        borrowed_at := none } a with
  | error e => simp [LibraryService.register_book, hadd] at h
  | ok s₁ =>
    simp only [LibraryService.register_book, hadd, Except.ok.injEq,
      Prod.mk.injEq] at h
    obtain ⟨hb, hs⟩ := h
    refine ⟨hb.symm, ?_⟩
    rw [← hb, ← hs]
    exact hadd

theorem borrow_ok (s : RepoState) (a : Bool) (isbn borrower : String)
    (now : Datetime) (b : Book) (s' : RepoState)
    (h : LibraryService.borrow_book s a isbn borrower now = .ok (b, s')) :
    ∃ b₀, LibraryRepository.get s isbn = .ok b₀ ∧ b₀.is_available = true ∧
      b = b₀.checkout borrower now ∧
      LibraryRepository.update s (b₀.checkout borrower now) a = .ok s' := by
  cases hget : LibraryRepository.get s isbn with
  | error e => simp [LibraryService.borrow_book, hget] at h
  | ok b₀ =>
    cases hav : b₀.is_available with
    | false => simp [LibraryService.borrow_book, hget, hav] at h
    | true =>
      cases hupd : LibraryRepository.update s (b₀.checkout borrower now) a with
      | error e => simp [LibraryService.borrow_book, hget, hav, hupd] at h
      | ok s₁ =>
        simp only [LibraryService.borrow_book, hget, hav, if_true, hupd,
          Except.ok.injEq, Prod.mk.injEq] at h
        obtain ⟨hb, hs⟩ := h
        refine ⟨b₀, rfl, hav, hb.symm, ?_⟩
        rw [← hs]
        exact hupd

theorem return_ok (s : RepoState) (a : Bool) (isbn : String)
    (b : Book) (s' : RepoState)
    (h : LibraryService.return_book s a isbn = .ok (b, s')) :
    ∃ b₀, LibraryRepository.get s isbn = .ok b₀ ∧ b₀.is_available = false ∧
      b = b₀.checkin ∧
      LibraryRepository.update s b₀.checkin a = .ok s' := by
  cases hget : LibraryRepository.get s isbn with
  | error e => simp [LibraryService.return_book, hget] at h
  | ok b₀ =>
    cases hav : b₀.is_available with
    | true => simp [LibraryService.return_book, hget, hav] at h
    | false =>
      cases hupd : LibraryRepository.update s b₀.checkin a with
      | error e => simp [LibraryService.return_book, hget, hav, hupd] at h
      | ok s₁ =>
        simp only [LibraryService.return_book, hget, hav, Bool.false_eq_true,
          if_false, hupd, Except.ok.injEq, Prod.mk.injEq] at h
        obtain ⟨hb, hs⟩ := h
        refine ⟨b₀, rfl, hav, hb.symm, ?_⟩
        rw [← hs]
        exact hupd

/-! ## Reachable service states -/

/-- Every reachable state pairs the circulation fields of every book. -/
theorem reachable_stateWF (s : RepoState) (h : Reachable s) : StateWF s := by
  induction h with
  | init store autosave now s hwf hmk => exact stateWF_mkService store autosave now s hmk hwf
  | register s autosave isbn title author now b s' _ hok ih =>
    obtain ⟨hb, hadd⟩ := register_ok s autosave isbn title author now b s' hok
    intro p hp
    rw [add_ok_books s b autosave s' hadd] at hp
    refine stateWF_dictInsert s.books _ _ ih ?_ p hp
    rw [bookWellFormed_set_isbn, hb]
    rfl
  | borrow s autosave isbn borrower now b s' _ hok ih =>
    obtain ⟨b₀, _, _, _, hupd⟩ := borrow_ok s autosave isbn borrower now b s' hok
    intro p hp
    rw [update_ok_books s _ autosave s' hupd] at hp
    refine stateWF_dictInsert s.books _ _ ih ?_ p hp
    rw [bookWellFormed_set_isbn]
    rfl
  | ret s autosave isbn b s' _ hok ih =>
    obtain ⟨b₀, _, _, _, hupd⟩ := return_ok s autosave isbn b s' hok
    intro p hp
    rw [update_ok_books s _ autosave s' hupd] at hp
    refine stateWF_dictInsert s.books _ _ ih ?_ p hp
    rw [bookWellFormed_set_isbn]
    rfl
  | removeBook s autosave isbn s' _ hok ih =>
    intro p hp
    rw [remove_ok_books s isbn autosave s' hok] at hp
    exact ih p (List.mem_filter.mp hp).1
  | importCat s entries now _ ih =>
    intro p hp
    have hp' := mem_dictOfPairs _ _ hp
    rcases List.mem_map.mp hp' with ⟨b, hb, hpb⟩
    rcases List.mem_map.mp hb with ⟨e, _, hbe⟩
    rw [← hpb, ← hbe]
    rfl
  | reset s _ ih =>
    intro p hp
    have hp' := mem_dictOfPairs _ _ hp
    simp at hp'

/-! ## Storage round-trip helpers -/

theorem from_dict_to_dict (b : Book) :
    LibraryStorage.from_dict (LibraryStorage.to_dict b) = b := by
  cases b with
  | mk isbn title author added_at borrower borrowed_at =>
    unfold LibraryStorage.to_dict LibraryStorage.from_dict
    cases borrowed_at with
    | none => simp [fromisoformat_isoformat]
    | some d => simp [fromisoformat_isoformat, isoformat_ne_empty d]

theorem to_dict_from_dict (d : BookDict) (h : LibraryStorage.validDict d = true) :
    LibraryStorage.to_dict (LibraryStorage.from_dict d) = d := by
  cases d with
  | mk isbn title author added_at borrower borrowed_at =>
    unfold LibraryStorage.validDict at h
    simp only [Bool.and_eq_true] at h
    obtain ⟨h1, h2⟩ := h
    have h1' : isoformat (fromisoformat added_at) = added_at := by
      have := h1
      unfold LibraryStorage.validIso at this
      exact beq_iff_eq.mp this
    unfold LibraryStorage.to_dict LibraryStorage.from_dict
    cases borrowed_at with
    | none => simp [h1']
    | some st =>
      have h2' : isoformat (fromisoformat st) = st := by
        unfold LibraryStorage.validIso at h2
        exact beq_iff_eq.mp h2
      have hne : st ≠ "" := by
        rw [← h2']
        exact isoformat_ne_empty _
      simp [h1', h2', hne]

/-! ## The claims -/

/-- C8: `normalize_isbn` is idempotent — `normalize(normalize(s)) =
normalize(s)` for every string `s` — and insensitive to separators: it
strips every non-alphanumeric character and upper-cases the remainder, so
`normalize("978-0-14-312854-0") = normalize("9780143128540") =
"9780143128540"`. -/
theorem claim_normalize_isbn_idempotent_and_separator_insensitive :
    (∀ s : String, normalize_isbn (normalize_isbn s) = normalize_isbn s) ∧
    normalize_isbn "978-0-14-312854-0" = "9780143128540" ∧
    normalize_isbn "9780143128540" = "9780143128540" :=
  ⟨normalize_isbn_idempotent, by decide, by decide⟩

/-- C5: storage round-trip — loading any valid stored collection and saving
the result reproduces the stored records exactly, and loading after saving
recovers every field of every saved `Book` (optional borrower fields kept
as explicit absence markers, timestamps through the lossless textual
codec). -/
theorem claim_storage_round_trip :
    (∀ b : Book, LibraryStorage.from_dict (LibraryStorage.to_dict b) = b) ∧
    (∀ stored : List BookDict,
      (∀ d ∈ stored, LibraryStorage.validDict d = true) →
      LibraryStorage.save_books (LibraryStorage.load_books stored) = stored) := by
  constructor
  · exact from_dict_to_dict
  · intro stored hval
    unfold LibraryStorage.save_books LibraryStorage.load_books
    rw [List.map_map]
    calc stored.map (LibraryStorage.to_dict ∘ LibraryStorage.from_dict)
        = stored.map id := by
          apply List.map_congr_left
          intro d hd
          exact to_dict_from_dict d (hval d hd)
      _ = stored := List.map_id stored

/-- C5 witness: a concrete valid stored collection round-trips. -/
theorem claim_storage_round_trip_witness :
    LibraryStorage.save_books (LibraryStorage.load_books
      [⟨"9780143127741", "The Alchemist", "Paulo Coelho", "120", none, none⟩,
       ⟨"1", "t", "a", "5", some "Alice", some "7"⟩]) =
      [⟨"9780143127741", "The Alchemist", "Paulo Coelho", "120", none, none⟩,
       ⟨"1", "t", "a", "5", some "Alice", some "7"⟩] :=
  claim_storage_round_trip.2 _ (by decide)

/-- C3: registering a book whose ISBN is already present after
normalization fails with AlreadyExists; the result is only the error, so
no entry is added, none is replaced and nothing is persisted. -/
theorem claim_register_duplicate (s : RepoState) (autosave : Bool)
    (isbn title author : String) (now : Datetime)
    (h : dictContains s.books (normalize_isbn isbn) = true) :
    LibraryService.register_book s autosave isbn title author now =
      .error (.alreadyExists
        ("Book with ISBN " ++ normalize_isbn isbn ++ " already exists")) := by
  have hkey : normalize_isbn (normalize_isbn isbn) = normalize_isbn isbn :=
    normalize_isbn_idempotent isbn
  simp only [LibraryService.register_book, LibraryRepository.add, hkey, h,
    if_true]

/-- C3 witness: registering ISBN "1" twice fails the second time. -/
theorem claim_register_duplicate_witness :
    LibraryService.register_book
      ⟨[("1", ⟨"1", "t", "a", 0, none, none⟩)], []⟩ true "1" "x" "y" 3 =
      .error (.alreadyExists
        ("Book with ISBN " ++ normalize_isbn "1" ++ " already exists")) :=
  claim_register_duplicate _ _ _ _ _ _ (by decide)

/-- C2: borrowing an available book succeeds, storing the book with
borrower and borrowed_at set; borrowing it again before it is returned
fails with Unavailable, the message contains the current borrower's name,
and (the failed call producing only an error) the stored borrower and
borrowed_at are untouched. -/
theorem claim_borrow_then_reborrow (s : RepoState) (autosave : Bool)
    (isbn borrower : String) (now : Datetime) (b : Book)
    (hget : dictGet s.books (normalize_isbn isbn) = some b)
    (hkey : normalize_isbn b.isbn = normalize_isbn isbn)
    (hav : b.is_available = true) :
    ∃ s' : RepoState,
      LibraryService.borrow_book s autosave isbn borrower now =
        .ok (b.checkout borrower now, s') ∧
      dictGet s'.books (normalize_isbn isbn) =
        some { b.checkout borrower now with isbn := normalize_isbn isbn } ∧
      ({ b.checkout borrower now with
          isbn := normalize_isbn isbn } : Book).borrower = some borrower ∧
      ({ b.checkout borrower now with
          isbn := normalize_isbn isbn } : Book).borrowed_at = some now ∧
      (∀ (borrower2 : String) (now2 : Datetime),
        LibraryService.borrow_book s' autosave isbn borrower2 now2 =
          .error (.unavailable ("Book '" ++ b.title ++ "' is already borrowed by "
            ++ borrower ++ "."))) ∧
      (∃ pre post : String,
        ("Book '" ++ b.title ++ "' is already borrowed by " ++ borrower ++ ".") =
          pre ++ borrower ++ post) := by
  have hcont : dictContains s.books (normalize_isbn isbn) = true := by
    unfold dictContains
    rw [hget]
    rfl
  have hget' : LibraryRepository.get s isbn = .ok b := by
    simp only [LibraryRepository.get, hget]
  have hkey2 : normalize_isbn (Book.checkout b borrower now).isbn =
      normalize_isbn isbn := hkey
  have hcont2 : dictContains s.books
      (normalize_isbn (Book.checkout b borrower now).isbn) = true := by
    rw [hkey2]
    exact hcont
  obtain ⟨s', hupd⟩ :=
    update_contains_ok s (Book.checkout b borrower now) autosave hcont2
  have hbooks : dictGet s'.books (normalize_isbn isbn) =
      some { b.checkout borrower now with isbn := normalize_isbn isbn } := by
    rw [update_ok_books s _ autosave s' hupd, hkey2, dictGet_dictInsert_self]
  have hget2 : LibraryRepository.get s' isbn =
      .ok { b.checkout borrower now with isbn := normalize_isbn isbn } := by
    simp only [LibraryRepository.get, hbooks]
  refine ⟨s', ?_, hbooks, rfl, rfl, ?_,
    ⟨"Book '" ++ b.title ++ "' is already borrowed by ", ".", rfl⟩⟩
  · simp only [LibraryService.borrow_book, hget', hav, if_true, hupd]
  · intro borrower2 now2
    have hav2 : ({ b.checkout borrower now with
        isbn := normalize_isbn isbn } : Book).is_available = false := rfl
    simp only [LibraryService.borrow_book, hget2, hav2, Bool.false_eq_true,
      if_false]
    rfl

/-- C2 witness: a concrete borrow followed by a failed re-borrow. -/
theorem claim_borrow_then_reborrow_witness :
    ∃ s' : RepoState,
      LibraryService.borrow_book ⟨[("1", ⟨"1", "t", "a", 0, none, none⟩)], []⟩
          true "1" "Alice" 7 =
        .ok ((⟨"1", "t", "a", 0, none, none⟩ : Book).checkout "Alice" 7, s') ∧
      dictGet s'.books (normalize_isbn "1") =
        some { (⟨"1", "t", "a", 0, none, none⟩ : Book).checkout "Alice" 7 with
          isbn := normalize_isbn "1" } ∧
      ({ (⟨"1", "t", "a", 0, none, none⟩ : Book).checkout "Alice" 7 with
          isbn := normalize_isbn "1" } : Book).borrower = some "Alice" ∧
      ({ (⟨"1", "t", "a", 0, none, none⟩ : Book).checkout "Alice" 7 with
          isbn := normalize_isbn "1" } : Book).borrowed_at = some 7 ∧
      (∀ (borrower2 : String) (now2 : Datetime),
        LibraryService.borrow_book s' true "1" borrower2 now2 =
          .error (.unavailable ("Book '" ++ "t" ++ "' is already borrowed by "
            ++ "Alice" ++ "."))) ∧
      (∃ pre post : String,
        ("Book '" ++ "t" ++ "' is already borrowed by " ++ "Alice" ++ ".") =
          pre ++ "Alice" ++ post) :=
  claim_borrow_then_reborrow _ true "1" "Alice" 7 _ (by decide) (by decide)
    (by decide)

/-- C6: returning a book that has no borrower fails with Unavailable and
produces nothing but the error; returning a borrowed book succeeds,
clearing both borrower and borrowed_at, and stores the cleared book. -/
theorem claim_return_book (s : RepoState) (autosave : Bool) (isbn : String)
    (b : Book)
    (hget : dictGet s.books (normalize_isbn isbn) = some b)
    (hkey : normalize_isbn b.isbn = normalize_isbn isbn) :
    (b.borrower = none →
      LibraryService.return_book s autosave isbn =
        .error (.unavailable
          ("Book '" ++ b.title ++ "' is not currently borrowed."))) ∧
    (b.borrower ≠ none →
      ∃ s' : RepoState,
        LibraryService.return_book s autosave isbn = .ok (b.checkin, s') ∧
        dictGet s'.books (normalize_isbn isbn) =
          some { b.checkin with isbn := normalize_isbn isbn } ∧
        b.checkin.borrower = none ∧ b.checkin.borrowed_at = none) := by
  have hget' : LibraryRepository.get s isbn = .ok b := by
    simp only [LibraryRepository.get, hget]
  constructor
  · intro hnone
    have hav : b.is_available = true := (is_available_iff b).mpr hnone
    simp only [LibraryService.return_book, hget', hav, if_true]
  · intro hsome
    have hav : b.is_available = false := by
      cases hb : b.borrower with
      | none => exact absurd hb hsome
      | some name => unfold Book.is_available; rw [hb]; rfl
    have hcont : dictContains s.books (normalize_isbn isbn) = true := by
      unfold dictContains
      rw [hget]
      rfl
    have hkey2 : normalize_isbn (Book.checkin b).isbn = normalize_isbn isbn :=
      hkey
    have hcont2 : dictContains s.books
        (normalize_isbn (Book.checkin b).isbn) = true := by
      rw [hkey2]
      exact hcont
    obtain ⟨s', hupd⟩ := update_contains_ok s (Book.checkin b) autosave hcont2
    refine ⟨s', ?_, ?_, rfl, rfl⟩
    · simp only [LibraryService.return_book, hget', hav, Bool.false_eq_true,
        if_false, hupd]
    · rw [update_ok_books s _ autosave s' hupd, hkey2, dictGet_dictInsert_self]

/-- C6 witness: returning a borrowed book clears both circulation fields;
instantiated at a concrete borrowed book. -/
theorem claim_return_book_witness :
    ∃ s' : RepoState,
      LibraryService.return_book
          ⟨[("1", ⟨"1", "t", "a", 0, some "Alice", some 7⟩)], []⟩ true "1" =
        .ok ((⟨"1", "t", "a", 0, some "Alice", some 7⟩ : Book).checkin, s') ∧
      dictGet s'.books (normalize_isbn "1") =
        some { (⟨"1", "t", "a", 0, some "Alice", some 7⟩ : Book).checkin with
          isbn := normalize_isbn "1" } ∧
      (⟨"1", "t", "a", 0, some "Alice", some 7⟩ : Book).checkin.borrower = none ∧
      (⟨"1", "t", "a", 0, some "Alice", some 7⟩ : Book).checkin.borrowed_at =
        none :=
  (claim_return_book _ true "1" _ (by decide) (by decide)).2 (by decide)

theorem lastPairWith_map_norm (k : String) (books : List Book) :
    lastPairWith k (books.map (fun b => (normalize_isbn b.isbn, b))) =
      lastWith (fun b => normalize_isbn b.isbn == k) books := by
  induction books with
  | nil => rfl
  | cons hd tl ih =>
    simp only [List.map_cons, lastPairWith, lastWith, ih]

/-- C7: `import_catalog` replaces the entire catalog with exactly the
imported set — the resulting mapping is a function of the entries alone,
with no dependence on the prior state — and the replacement is persisted
unconditionally (`save_all` writes without consulting any autosave flag):
the stored collection equals the values of the new mapping. -/
theorem claim_import_replaces_and_persists (s : RepoState)
    (entries : List Entry) (now : Datetime) :
    ((LibraryService.import_catalog s entries now).2.books =
      dictOfPairs ((entries.map (fun e => LibraryService.entryToBook e now)).map
        (fun b => (normalize_isbn b.isbn, b)))) ∧
    ((LibraryService.import_catalog s entries now).2.store =
      dictValues (LibraryService.import_catalog s entries now).2.books) ∧
    (∀ k : String,
      dictContains (LibraryService.import_catalog s entries now).2.books k = true ↔
        ∃ e ∈ entries, normalize_isbn e.isbn = k) := by
  refine ⟨rfl, rfl, fun k => ?_⟩
  unfold dictContains
  have hbooks : (LibraryService.import_catalog s entries now).2.books =
      dictOfPairs ((entries.map (fun e => LibraryService.entryToBook e now)).map
        (fun b => (normalize_isbn b.isbn, b))) := rfl
  rw [hbooks, dictGet_dictOfPairs]
  rw [lastPairWith_isSome_iff]
  constructor
  · rintro ⟨q, hq, hqk⟩
    rcases List.mem_map.mp hq with ⟨b, hb, hqb⟩
    rcases List.mem_map.mp hb with ⟨e, he, hbe⟩
    refine ⟨e, he, ?_⟩
    rw [← hqk, ← hqb]
    show normalize_isbn e.isbn = normalize_isbn b.isbn
    rw [← hbe]
    exact (normalize_isbn_idempotent e.isbn).symm
  · rintro ⟨e, he, hek⟩
    refine ⟨(normalize_isbn (LibraryService.entryToBook e now).isbn,
      LibraryService.entryToBook e now), ?_, ?_⟩
    · exact List.mem_map.mpr ⟨LibraryService.entryToBook e now,
        List.mem_map.mpr ⟨e, he, rfl⟩, rfl⟩
    · show normalize_isbn (normalize_isbn e.isbn) = k
      rw [normalize_isbn_idempotent]
      exact hek

/-- C10: with duplicate normalized ISBNs among the entries, import raises
no error (it is a total function into a plain state); the resulting catalog
keeps, per key, only the last entry mapping to it, while the returned list
still has one book per input entry — demonstrated also on a concrete
duplicate import. -/
theorem claim_import_duplicates_last_wins (s : RepoState)
    (entries : List Entry) (now : Datetime) :
    ((LibraryService.import_catalog s entries now).1.length = entries.length) ∧
    (∀ k : String,
      dictGet (LibraryService.import_catalog s entries now).2.books k =
        lastWith (fun b => normalize_isbn b.isbn == k)
          (LibraryService.import_catalog s entries now).1) ∧
    ((LibraryService.import_catalog (⟨[], []⟩ : RepoState)
        [⟨"1", "t1", "a1"⟩, ⟨"1", "t2", "a2"⟩] 0).2.books =
      [("1", LibraryService.entryToBook ⟨"1", "t2", "a2"⟩ 0)]) := by
  refine ⟨by simp [LibraryService.import_catalog], fun k => ?_, by decide⟩
  have hbooks : (LibraryService.import_catalog s entries now).2.books =
      dictOfPairs ((entries.map (fun e => LibraryService.entryToBook e now)).map
        (fun b => (normalize_isbn b.isbn, b))) := rfl
  rw [hbooks, dictGet_dictOfPairs, lastPairWith_map_norm]
  rfl

theorem all_keys_dictInsert (m : Dict) (k : String) (v : Book)
    (hm : m.all (fun p => normalize_isbn p.1 == p.1) = true)
    (hk : normalize_isbn k = k) :
    (dictInsert m k v).all (fun p => normalize_isbn p.1 == p.1) = true := by
  rw [List.all_eq_true] at hm ⊢
  intro p hp
  rcases mem_dictInsert m k v p hp with rfl | hp'
  · exact beq_iff_eq.mpr hk
  · exact hm p hp'

/-- C9 counterexample: a single `save_all` keys the book under the
normalized ISBN but leaves the stored book's `isbn` field as passed, so the
key differs from the `isbn` field inside the book it maps to. -/
theorem claim_repo_keys_cex :
    (LibraryRepository.save_all ⟨[], []⟩
        [⟨"a-b", "t", "a", 0, none, none⟩]).books =
      [("AB", ⟨"a-b", "t", "a", 0, none, none⟩)] ∧
    normalize_isbn "a-b" = "AB" ∧
    ("AB" : String) ≠ "a-b" :=
  ⟨by decide, by decide, by decide⟩

/-- C9 amended: after `add`, `update` and `save_all` every key of the
mapping is normalized, and `add`/`update` additionally overwrite the passed
book's `isbn` with the normalized key before insertion; `save_all` only
normalizes the keys and stores the books with their `isbn` fields as
passed. -/
theorem claim_repo_keys_amended (s : RepoState) (h : KeysNormalized s = true) :
    (∀ (bk : Book) (a : Bool) (s' : RepoState),
      LibraryRepository.add s bk a = .ok s' →
      KeysNormalized s' = true ∧
      dictGet s'.books (normalize_isbn bk.isbn) =
        some { bk with isbn := normalize_isbn bk.isbn }) ∧
    (∀ (bk : Book) (a : Bool) (s' : RepoState),
      LibraryRepository.update s bk a = .ok s' →
      KeysNormalized s' = true ∧
      dictGet s'.books (normalize_isbn bk.isbn) =
        some { bk with isbn := normalize_isbn bk.isbn }) ∧
    (∀ books : List Book,
      KeysNormalized (LibraryRepository.save_all s books) = true) := by
  refine ⟨fun bk a s' hok => ?_, fun bk a s' hok => ?_, fun books => ?_⟩
  · constructor
    · show s'.books.all _ = true
      rw [add_ok_books s bk a s' hok]
      exact all_keys_dictInsert s.books _ _ h (normalize_isbn_idempotent _)
    · rw [add_ok_books s bk a s' hok]
      exact dictGet_dictInsert_self _ _ _
  · constructor
    · show s'.books.all _ = true
      rw [update_ok_books s bk a s' hok]
      exact all_keys_dictInsert s.books _ _ h (normalize_isbn_idempotent _)
    · rw [update_ok_books s bk a s' hok]
      exact dictGet_dictInsert_self _ _ _
  · show (dictOfPairs (books.map (fun b => (normalize_isbn b.isbn, b)))).all _ = true
    rw [List.all_eq_true]
    intro p hp
    rcases List.mem_map.mp (mem_dictOfPairs _ _ hp) with ⟨b, _, hpb⟩
    rw [← hpb]
    exact beq_iff_eq.mpr (normalize_isbn_idempotent _)

/-- C9 amended witness: the `save_all` part at a concrete input. -/
theorem claim_repo_keys_amended_witness :
    KeysNormalized (LibraryRepository.save_all ⟨[], []⟩
      [⟨"a-b", "t", "a", 0, none, none⟩]) = true :=
  (claim_repo_keys_amended ⟨[], []⟩ (by decide)).2.2
    [⟨"a-b", "t", "a", 0, none, none⟩]

/-- If a book with `isbn` field `k` is among the loaded values, `k` is a key
of the loaded mapping (`_load` keys every stored book by its `isbn`). -/
theorem load_contains_of_values (store : List Book) (k : String)
    (h : ∃ b ∈ dictValues (LibraryRepository.load store).books, b.isbn = k) :
    dictContains (LibraryRepository.load store).books k = true := by
  rcases h with ⟨b, hb, rfl⟩
  rcases List.mem_map.mp hb with ⟨p, hp, hpb⟩
  have hkey : p.1 = p.2.isbn := by
    rcases List.mem_map.mp (mem_dictOfPairs _ _ hp) with ⟨c, _, hpc⟩
    rw [← hpc]
  have hc := dictContains_of_mem _ p hp
  rw [hkey, hpb] at hc
  exact hc

/-- C4 counterexample: remove the seed entry `9780143127741` from a freshly
constructed service, then reconstruct the service against the resulting
store — the removed seed ISBN is present again. -/
theorem claim_seed_resurrection_cex :
    dictContains state1.books "9780143127741" = false ∧
    state1.store.all (fun b => b.isbn != "9780143127741") = true ∧
    LibraryService.mkService state1.store true 1 = .ok state2 ∧
    dictContains state2.books "9780143127741" = true :=
  ⟨by decide, by decide, by rfl, by decide⟩

/-- C4 amended: reconstruction DOES resurrect a removed seed entry — after
any successful service construction every seed ISBN is present, because
seeding re-adds every seed entry whose normalized ISBN is absent at
construction time; and when every seed ISBN is already present among the
loaded books, seeding is a no-op (idempotent top-up). -/
theorem claim_seed_topup (store : List Book) (autosave : Bool) (now : Datetime) :
    (∀ st : RepoState, LibraryService.mkService store autosave now = .ok st →
      ∀ e ∈ default_catalog,
        dictContains st.books (normalize_isbn e.isbn) = true) ∧
    ((∀ e ∈ default_catalog,
        ∃ b ∈ dictValues (LibraryRepository.load store).books,
          b.isbn = normalize_isbn e.isbn) →
      LibraryService.mkService store autosave now =
        .ok (LibraryRepository.load store)) := by
  constructor
  · intro st hmk e he
    have hmk' : LibraryService.initDefaults (LibraryRepository.load store)
        autosave now = .ok st := hmk
    simp only [LibraryService.initDefaults] at hmk'
    by_cases hemp : (default_catalog.filter (fun e =>
        !(((dictValues (LibraryRepository.load store).books).map
          (fun b => b.isbn)).contains (normalize_isbn e.isbn)))).isEmpty = true
    · rw [if_pos hemp] at hmk'
      cases hmk'
      have hnil := List.isEmpty_iff.mp hemp
      have hpred := List.filter_eq_nil_iff.mp hnil e he
      simp only [Bool.not_eq_true', Bool.not_eq_false] at hpred
      rcases List.mem_map.mp (List.elem_iff.mp hpred) with ⟨b, hb, hbe⟩
      exact load_contains_of_values store _ ⟨b, hb, hbe⟩
    · rw [if_neg hemp] at hmk'
      by_cases hmiss : (!(((dictValues (LibraryRepository.load store).books).map
          (fun b => b.isbn)).contains (normalize_isbn e.isbn))) = true
      · exact seedFold_added _ _ st autosave now hmk' e
          (List.mem_filter.mpr ⟨he, hmiss⟩)
      · simp only [Bool.not_eq_true', Bool.not_eq_false] at hmiss
        rcases List.mem_map.mp (List.elem_iff.mp hmiss) with ⟨b, hb, hbe⟩
        exact seedFold_mono _ _ st autosave now _ hmk'
          (load_contains_of_values store _ ⟨b, hb, hbe⟩)
  · intro hall
    have hnil : (default_catalog.filter (fun e =>
        !(((dictValues (LibraryRepository.load store).books).map
          (fun b => b.isbn)).contains (normalize_isbn e.isbn)))) = [] := by
      rw [List.filter_eq_nil_iff]
      intro e he
      rcases hall e he with ⟨b, hb, hbe⟩
      have : normalize_isbn e.isbn ∈ (dictValues
          (LibraryRepository.load store).books).map (fun b => b.isbn) :=
        List.mem_map.mpr ⟨b, hb, hbe⟩
      simp
      exact ⟨b, hb, hbe⟩
    show LibraryService.initDefaults (LibraryRepository.load store)
        autosave now = .ok (LibraryRepository.load store)
    simp only [LibraryService.initDefaults, hnil, List.isEmpty_nil, if_true]

/-- C4 amended witness: after construction against the empty store, the
first seed ISBN is present. -/
theorem claim_seed_topup_witness :
    dictContains state0.books (normalize_isbn "9780143127741") = true :=
  (claim_seed_topup [] true 0).1 state0 (by rfl)
    ⟨"9780143127741", "The Alchemist", "Paulo Coelho"⟩ (by decide)

/-- C1: in every state reachable through the public operations
(construction from a well-formed store, registration, import, borrow,
return, removal, reset), every book of the catalog satisfies
`is_available ⇔ borrower = none ⇔ borrowed_at = none`; moreover `checkout`
sets borrower and borrowed_at together and `checkin` clears them
together. -/
theorem claim_book_invariant (s : RepoState) (h : Reachable s) (k : String)
    (b : Book) (hmem : (k, b) ∈ s.books) (name : String) (t : Datetime) :
    (b.is_available = true ↔ b.borrower = none) ∧
    (b.borrower = none ↔ b.borrowed_at = none) ∧
    (b.checkout name t).borrower = some name ∧
    (b.checkout name t).borrowed_at = some t ∧
    b.checkin.borrower = none ∧ b.checkin.borrowed_at = none := by
  have hwf := reachable_stateWF s h (k, b) hmem
  exact ⟨is_available_iff b, bookWellFormed_iff b hwf, rfl, rfl, rfl, rfl⟩

/-- C1 witness: the invariant instantiated at a seed book of the state
constructed from the empty store. -/
theorem claim_book_invariant_witness :
    ((⟨"9780143127741", "The Alchemist", "Paulo Coelho", 0, none, none⟩ :
        Book).is_available = true ↔
      (⟨"9780143127741", "The Alchemist", "Paulo Coelho", 0, none, none⟩ :
        Book).borrower = none) ∧
    ((⟨"9780143127741", "The Alchemist", "Paulo Coelho", 0, none, none⟩ :
        Book).borrower = none ↔
      (⟨"9780143127741", "The Alchemist", "Paulo Coelho", 0, none, none⟩ :
        Book).borrowed_at = none) ∧
    ((⟨"9780143127741", "The Alchemist", "Paulo Coelho", 0, none, none⟩ :
        Book).checkout "Alice" 7).borrower = some "Alice" ∧
    ((⟨"9780143127741", "The Alchemist", "Paulo Coelho", 0, none, none⟩ :
        Book).checkout "Alice" 7).borrowed_at = some 7 ∧
    (⟨"9780143127741", "The Alchemist", "Paulo Coelho", 0, none, none⟩ :
        Book).checkin.borrower = none ∧
    (⟨"9780143127741", "The Alchemist", "Paulo Coelho", 0, none, none⟩ :
        Book).checkin.borrowed_at = none :=
  claim_book_invariant state0
    (Reachable.init [] true 0 state0 (by decide) (by rfl))
    "9780143127741"
    ⟨"9780143127741", "The Alchemist", "Paulo Coelho", 0, none, none⟩
    (by decide) "Alice" 7

end SimpleLibrary
